import Mathlib

/-!
# Verification of the gomonitor check-result library

Shallow embedding of `gomonitor.go` (package `gomonitor`): a Nagios-style
check-result builder with exit codes, ordered performance metrics and a
single-line text rendering.

Modelling conventions:
* Go `float64` fields are modelled as `ℚ`; `fmt`'s `%.2f` formatting is
  modelled by decimal rounding to two places with round-half-to-even on the
  magnitude, which is how Go renders the shortest-decimal digits of a float.
* A Go `map[string]V` is modelled as `Option (List (String × V))`: `none` is
  the nil map, `some l` an allocated map represented as an association list
  with unique keys.  Reads on a nil map yield "absent"; writes to a nil map
  panic in Go, which the embedding surfaces as `Option.none` results of the
  operations that can panic.
* `os.Exit` / `fmt.Println` in `SendResult` are modelled by returning the
  text written to standard output and the process exit status.
-/

set_option maxRecDepth 4000

namespace GoMonitor

/-- Go: `type ExitCode int`. -/
abbrev ExitCode := Int

/-- Go: `OK ExitCode = iota` (0). -/
def OK : ExitCode := 0

/-- Go: `Warning` (1). -/
def Warning : ExitCode := 1

/-- Go: `Critical` (2). -/
def Critical : ExitCode := 2

/-- Go: `Unknown` (3). -/
def Unknown : ExitCode := 3

/-- Go: `func (ec ExitCode) String() string` — switch over the four named
constants with a `fmt.Sprintf("ExitCode(%d)", ec)` fallback. -/
def ExitCodeString (ec : ExitCode) : String :=
  if ec = OK then "OK"
  else if ec = Warning then "Warning"
  else if ec = Critical then "Critical"
  else if ec = Unknown then "Unknown"
  else "ExitCode(" ++ toString ec ++ ")"

/-- Go: `func (ec ExitCode) Int() int` — switch over the four named constants,
default returns `int(ec)`. -/
def ExitCodeInt (ec : ExitCode) : Int :=
  if ec = OK then 0
  else if ec = Warning then 1
  else if ec = Critical then 2
  else if ec = Unknown then 3
  else ec

/-- Go: `type PerformanceMetric struct` with five `float64` fields and a
unit-of-measure string. -/
structure PerformanceMetric where
  Value : ℚ
  Warn : ℚ
  Crit : ℚ
  Min : ℚ
  Max : ℚ
  UnitOM : String
  deriving DecidableEq, Repr

/-- The zero value of `PerformanceMetric` (what a Go map read returns for an
absent key). -/
def zeroMetric : PerformanceMetric :=
  { Value := 0, Warn := 0, Crit := 0, Min := 0, Max := 0, UnitOM := "" }

/-- Association-list lookup, modelling a Go map read (`m[k]`). -/
def alLookup {α : Type} : List (String × α) → String → Option α
  | [], _ => none
  | (k', v) :: rest, k => if k = k' then some v else alLookup rest k

/-- Association-list insert/overwrite, modelling a Go map write (`m[k] = v`). -/
def alInsert {α : Type} : List (String × α) → String → α → List (String × α)
  | [], k, v => [(k, v)]
  | (k', v') :: rest, k, v =>
      if k = k' then (k, v) :: rest else (k', v') :: alInsert rest k v

/-- Association-list erase, modelling Go's `delete(m, k)`. -/
def alErase {α : Type} : List (String × α) → String → List (String × α)
  | [], _ => []
  | (k', v') :: rest, k =>
      if k = k' then alErase rest k else (k', v') :: alErase rest k

/-- Go's `len(m)` for a possibly-nil map. -/
def goMapLen {α : Type} (m : Option (List (String × α))) : Nat :=
  match m with
  | none => 0
  | some l => l.length

/-- Go: `type CheckResult struct`.  `ExitCode` is the embedded status field,
`perfIndexMap` the unexported index map used for deletion. -/
structure CheckResult where
  ExitCode : ExitCode
  Message : String
  PerfOrder : List String
  PerformanceData : Option (List (String × PerformanceMetric))
  Format : String
  perfIndexMap : Option (List (String × Nat))
  deriving DecidableEq, Repr

/-- Go: `func NewCheckResult() *CheckResult` — default status `OK`, template
`"%s - %s"`, allocated empty map, order slice and index map; `Message` is the
zero value `""`. -/
def NewCheckResult : CheckResult :=
  { ExitCode := OK
    Message := ""
    PerfOrder := []
    PerformanceData := some []
    Format := "%s - %s"
    perfIndexMap := some [] }

/-- Go: `func (cr *CheckResult) SetResult(ec ExitCode, msg string)`. -/
def SetResult (cr : CheckResult) (ec : ExitCode) (msg : String) : CheckResult :=
  { cr with ExitCode := ec, Message := msg }

/-- Go: `func (cr *CheckResult) AddPerformanceData(metricName string, metric
PerformanceMetric)`.  If `PerformanceData` is nil, all three structures are
initialized; a fresh name is appended to `PerfOrder` and recorded in
`perfIndexMap` at index `len(PerfOrder) - 1`; finally the metric is stored.
The `none` result models the Go panic from writing to a nil `perfIndexMap`
(reachable only on hand-built states where `PerformanceData` is non-nil but
`perfIndexMap` is nil). -/
def AddPerformanceData (cr : CheckResult) (metricName : String)
    (metric : PerformanceMetric) : Option CheckResult :=
  let cr :=
    if cr.PerformanceData.isNone then
      { cr with PerformanceData := some [], PerfOrder := [],
                perfIndexMap := some [] }
    else cr
  let pd := cr.PerformanceData.getD []
  if (alLookup pd metricName).isNone then
    match cr.perfIndexMap with
    | none => none
    | some pim =>
        let po := cr.PerfOrder ++ [metricName]
        some { cr with
                PerfOrder := po
                perfIndexMap := some (alInsert pim metricName (po.length - 1))
                PerformanceData := some (alInsert pd metricName metric) }
  else
    some { cr with PerformanceData := some (alInsert pd metricName metric) }

/-- Go: `func (cr *CheckResult) UpdatePerformanceData(metricName string, metric
PerformanceMetric)` — a bare map write `cr.PerformanceData[metricName] =
metric`; `none` models the Go panic from writing to a nil map. -/
def UpdatePerformanceData (cr : CheckResult) (metricName : String)
    (metric : PerformanceMetric) : Option CheckResult :=
  match cr.PerformanceData with
  | none => none
  | some pd =>
      some { cr with PerformanceData := some (alInsert pd metricName metric) }

/-- Go: `func (cr *CheckResult) DeletePerformanceData(metricName string)`.
Early return if the name is absent; otherwise delete from the map, and if the
index map knows the name, move the LAST element of `PerfOrder` into the
deleted slot and truncate (swap-with-last).  The `none` results model the Go
index-out-of-range panics on the slice reads/writes (unreachable from states
where the index map is consistent). -/
def DeletePerformanceData (cr : CheckResult) (metricName : String) :
    Option CheckResult :=
  if (alLookup (cr.PerformanceData.getD []) metricName).isNone then
    some cr
  else
    let pd := alErase (cr.PerformanceData.getD []) metricName
    match alLookup (cr.perfIndexMap.getD []) metricName with
    | none => some { cr with PerformanceData := some pd }
    | some index =>
        let pim := alErase (cr.perfIndexMap.getD []) metricName
        if cr.PerfOrder.length = 0 then none
        else
          let lastElement := cr.PerfOrder.getD (cr.PerfOrder.length - 1) ""
          if index < cr.PerfOrder.length then
            let po := cr.PerfOrder.set index lastElement
            some { cr with
                    PerformanceData := some pd
                    perfIndexMap := some (alInsert pim lastElement index)
                    PerfOrder := po.take (po.length - 1) }
          else none

/-- Round-half-to-even of a rational to an integer, as Go's decimal digit
generation does at the rounding position. -/
def roundHalfEven (q : ℚ) : ℤ :=
  let f := ⌊q⌋
  let frac := q - f
  if frac < 1/2 then f
  else if 1/2 < frac then f + 1
  else if f % 2 = 0 then f else f + 1

/-- `fmt`'s `%.2f` on a (rational-modelled) float: sign of the value, then the
magnitude rounded to hundredths, printed with exactly two fraction digits. -/
def fmtF2 (q : ℚ) : String :=
  let cents : Nat := (roundHalfEven (|q| * 100)).toNat
  let ip := cents / 100
  let fp := cents % 100
  let fracStr := if fp < 10 then "0" ++ toString fp else toString fp
  (if q < 0 then "-" else "") ++ toString ip ++ "." ++ fracStr

/-- Go `fmt`'s `%!(EXTRA type=value, ...)` argument list for unconsumed
`Sprintf` arguments. -/
def extraArgsString : List String → String
  | [] => ""
  | [a] => "string=" ++ a
  | a :: rest => "string=" ++ a ++ ", " ++ extraArgsString rest

/-- Core of `fmt.Sprintf` restricted to what the library's format strings use:
`%s` verbs consume string arguments left to right, `%%` prints a percent sign,
other characters are copied; missing arguments print `%!s(MISSING)`, leftover
arguments are appended as `%!(EXTRA string=..., ...)`. -/
def sprintfChars : List Char → List String → List Char
  | [], [] => []
  | [], a :: args => ("%!(EXTRA " ++ extraArgsString (a :: args) ++ ")").data
  | '%' :: 's' :: rest, a :: args => a.data ++ sprintfChars rest args
  | '%' :: 's' :: rest, [] => "%!s(MISSING)".data ++ sprintfChars rest []
  | '%' :: '%' :: rest, args => '%' :: sprintfChars rest args
  | c :: rest, args => c :: sprintfChars rest args

/-- `fmt.Sprintf(format, a1, a2)` for two string arguments. -/
def sprintf2 (format a1 a2 : String) : String :=
  String.mk (sprintfChars format.data [a1, a2])

/-- One metric token of the performance-data section: Go's
`fmt.Sprintf("'%s'=%.2f%s;%.2f;%.2f;%.2f;%.2f ", key, metric.Value,
metric.UnitOM, metric.Warn, metric.Crit, metric.Min, metric.Max)`. -/
def metricStr (key : String) (metric : PerformanceMetric) : String :=
  "'" ++ key ++ "'=" ++ fmtF2 metric.Value ++ metric.UnitOM ++ ";" ++
    fmtF2 metric.Warn ++ ";" ++ fmtF2 metric.Crit ++ ";" ++
    fmtF2 metric.Min ++ ";" ++ fmtF2 metric.Max ++ " "

/-- Go: `func (cr *CheckResult) FormatResult() string`.  Applies the format
template to the status name and message; if the map is non-empty, folds the
metric tokens over `PerfOrder` (a map read of an absent key yields the zero
metric) and appends them after `" | "` via `fmt.Sprintf("%s | %s", ...)`. -/
def FormatResult (cr : CheckResult) : String :=
  let output := sprintf2 cr.Format (ExitCodeString cr.ExitCode) cr.Message
  if goMapLen cr.PerformanceData > 0 then
    let pd := cr.PerformanceData.getD []
    let performanceDataStr :=
      cr.PerfOrder.foldl
        (fun acc key => acc ++ metricStr key ((alLookup pd key).getD zeroMetric))
        ""
    sprintf2 "%s | %s" output performanceDataStr
  else
    output

/-- State-threaded form of `FormatResult`: the Go method receives the receiver
by pointer and its body performs no assignment to any receiver field, so the
embedding returns, next to the string, the receiver rebuilt field by field
from what the body could observe. -/
def FormatResultM (cr : CheckResult) : String × CheckResult :=
  (FormatResult cr,
   { ExitCode := cr.ExitCode
     Message := cr.Message
     PerfOrder := cr.PerfOrder
     PerformanceData := cr.PerformanceData
     Format := cr.Format
     perfIndexMap := cr.perfIndexMap })

/-- Observable effect of process-terminating code: the text written to
standard output and the process exit status. -/
structure ProcessOutcome where
  stdout : String
  exitStatus : Int
  deriving DecidableEq, Repr

/-- Go: `func (cr *CheckResult) SendResult()` — `fmt.Println(cr.FormatResult())`
followed by `os.Exit(cr.ExitCode.Int())`. -/
def SendResult (cr : CheckResult) : ProcessOutcome :=
  { stdout := FormatResult cr ++ "\n"
    exitStatus := ExitCodeInt cr.ExitCode }

/-- The public mutating operations of `CheckResult`. -/
inductive Op where
  | setResult (ec : ExitCode) (msg : String)
  | add (name : String) (metric : PerformanceMetric)
  | update (name : String) (metric : PerformanceMetric)
  | delete (name : String)
  deriving DecidableEq, Repr

/-- Apply one public operation; `none` is a Go panic. -/
def applyOp (cr : CheckResult) : Op → Option CheckResult
  | .setResult ec msg => some (SetResult cr ec msg)
  | .add name metric => AddPerformanceData cr name metric
  | .update name metric => UpdatePerformanceData cr name metric
  | .delete name => DeletePerformanceData cr name

/-- Run a sequence of public operations. -/
def runOps (cr : CheckResult) : List Op → Option CheckResult
  | [] => some cr
  | op :: rest =>
      match applyOp cr op with
      | none => none
      | some cr' => runOps cr' rest


/-- The spec-level "two structures stay in sync" property: `PerfOrder` lists
each key of the metric map exactly once, and nothing else. -/
def inSync (cr : CheckResult) : Prop :=
  cr.PerfOrder.Nodup ∧
  (∀ name ∈ cr.PerfOrder,
    (alLookup (cr.PerformanceData.getD []) name).isSome = true) ∧
  (∀ p ∈ cr.PerformanceData.getD [], p.1 ∈ cr.PerfOrder)

/-- Full data-structure invariant of a `CheckResult`, strengthened with the
correctness of the unexported index map so that it is inductive. -/
def Inv (cr : CheckResult) : Prop :=
  cr.PerformanceData.isSome = true ∧
  cr.perfIndexMap.isSome = true ∧
  ((cr.PerformanceData.getD []).map Prod.fst).Nodup ∧
  ((cr.perfIndexMap.getD []).map Prod.fst).Nodup ∧
  cr.PerfOrder.Nodup ∧
  (∀ name, name ∈ cr.PerfOrder ↔
    (alLookup (cr.PerformanceData.getD []) name).isSome = true) ∧
  (∀ i (h : i < cr.PerfOrder.length),
    alLookup (cr.perfIndexMap.getD []) (cr.PerfOrder.get ⟨i, h⟩) = some i)

/-- Legality of one operation for the sync contract: `UpdatePerformanceData`
may only be used on a name that is already stored (its Go doc and the spec
describe it as updating an existing metric); every other operation is
unrestricted. -/
def okOp (cr : CheckResult) : Op → Prop
  | .update name _ => (alLookup (cr.PerformanceData.getD []) name).isSome = true
  | _ => True

/-- A run of public operations in which every step succeeds and every
`UpdatePerformanceData` hits an existing name. -/
inductive LegalRun : CheckResult → List Op → CheckResult → Prop where
  | nil (cr : CheckResult) : LegalRun cr [] cr
  | cons {cr cr' cr'' : CheckResult} {op : Op} {ops : List Op}
      (hok : okOp cr op) (happ : applyOp cr op = some cr')
      (hrest : LegalRun cr' ops cr'') : LegalRun cr (op :: ops) cr''

/-- The metric of the worked example in the spec (value 1.23 ms, warn 1.00,
crit 2.00, range 0.00 – 10.00). -/
def responseMetric : PerformanceMetric :=
  { Value := 1.23, Warn := 1.00, Crit := 2.00, Min := 0.00, Max := 10.00,
    UnitOM := "ms" }

/-- The report of the spec's worked example: default template, status OK,
message "Everything is fine", exactly the one metric `response_time`. -/
def responseReport : CheckResult :=
  { ExitCode := OK
    Message := "Everything is fine"
    PerfOrder := ["response_time"]
    PerformanceData := some [("response_time", responseMetric)]
    Format := "%s - %s"
    perfIndexMap := some [("response_time", 0)] }

/-- A second concrete metric, used to exercise overwriting. -/
def mOne : PerformanceMetric := { zeroMetric with Value := 1 }

/-- State after adding the metric `"t"` to a fresh report. -/
def addTwiceFirst : CheckResult :=
  (AddPerformanceData NewCheckResult "t" zeroMetric).getD NewCheckResult

/-- State after adding the metric `"t"` a second time with a new value. -/
def addTwiceSecond : CheckResult :=
  (AddPerformanceData addTwiceFirst "t" mOne).getD NewCheckResult

/-- An add/update/delete round trip on one name. -/
def syncOps : List Op :=
  [Op.add "a" zeroMetric, Op.update "a" mOne, Op.delete "a"]

/-- The state reached by `syncOps` from a fresh report. -/
def syncOpsResult : CheckResult :=
  (runOps NewCheckResult syncOps).getD NewCheckResult

@[simp] lemma alLookup_alInsert_self {α : Type} (l : List (String × α)) (k : String) (v : α) :
    alLookup (alInsert l k v) k = some v := by
  induction l with
  | nil => simp [alInsert, alLookup]
  | cons p rest ih =>
      obtain ⟨k', v'⟩ := p
      by_cases h : k = k' <;> simp [alInsert, alLookup, h, ih]

lemma alLookup_alInsert_ne {α : Type} (l : List (String × α)) (k k' : String) (v : α)
    (h : k' ≠ k) : alLookup (alInsert l k v) k' = alLookup l k' := by
  induction l with
  | nil => simp [alInsert, alLookup, h]
  | cons p rest ih =>
      obtain ⟨k'', v''⟩ := p
      by_cases h2 : k = k''
      · subst h2
        simp [alInsert, alLookup, h]
      · simp only [alInsert, if_neg h2, alLookup]
        by_cases h3 : k' = k'' <;> simp [h3, ih]

lemma add_nilmap (cr : CheckResult) (name : String) (m : PerformanceMetric)
    (h : cr.PerformanceData = none) :
    AddPerformanceData cr name m =
      some { cr with PerfOrder := [name], PerformanceData := some [(name, m)],
                     perfIndexMap := some [(name, 0)] } := by
  simp [AddPerformanceData, h, alLookup, alInsert]

lemma add_fresh (cr : CheckResult) (name : String) (m : PerformanceMetric)
    (pd : List (String × PerformanceMetric)) (pim : List (String × Nat))
    (hpd : cr.PerformanceData = some pd) (hpim : cr.perfIndexMap = some pim)
    (hlk : alLookup pd name = none) :
    AddPerformanceData cr name m =
      some { cr with PerfOrder := cr.PerfOrder ++ [name],
                     perfIndexMap := some (alInsert pim name cr.PerfOrder.length),
                     PerformanceData := some (alInsert pd name m) } := by
  simp [AddPerformanceData, hpd, hpim, hlk]

lemma add_existing (cr : CheckResult) (name : String) (m : PerformanceMetric)
    (pd : List (String × PerformanceMetric)) (v : PerformanceMetric)
    (hpd : cr.PerformanceData = some pd) (hlk : alLookup pd name = some v) :
    AddPerformanceData cr name m =
      some { cr with PerformanceData := some (alInsert pd name m) } := by
  simp [AddPerformanceData, hpd, hlk]

lemma add_pd_some (cr cr' : CheckResult) (name : String) (m : PerformanceMetric)
    (h : AddPerformanceData cr name m = some cr') :
    ∃ pd, cr'.PerformanceData = some pd ∧ alLookup pd name = some m := by
  cases hpd : cr.PerformanceData with
  | none =>
      rw [add_nilmap cr name m hpd, Option.some.injEq] at h
      subst h
      exact ⟨_, rfl, by simp [alLookup]⟩
  | some pd =>
      cases hlk : alLookup pd name with
      | none =>
          cases hpim : cr.perfIndexMap with
          | none =>
              rw [AddPerformanceData] at h
              simp [hpd, hpim, hlk] at h
          | some pim =>
              rw [add_fresh cr name m pd pim hpd hpim hlk, Option.some.injEq] at h
              subst h
              exact ⟨_, rfl, by simp⟩
      | some v =>
          rw [add_existing cr name m pd v hpd hlk, Option.some.injEq] at h
          subst h
          exact ⟨_, rfl, by simp⟩

/-- C6 candidate -/
example (cr : CheckResult) (name : String) (m1 m2 : PerformanceMetric)
    (cr1 cr2 : CheckResult)
    (h1 : AddPerformanceData cr name m1 = some cr1)
    (h2 : AddPerformanceData cr1 name m2 = some cr2) :
    cr2.PerfOrder = cr1.PerfOrder ∧
      alLookup (cr2.PerformanceData.getD []) name = some m2 := by
  obtain ⟨pd1, hpd1, hlk1⟩ := add_pd_some cr cr1 name m1 h1
  rw [add_existing cr1 name m2 pd1 m1 hpd1 hlk1, Option.some.injEq] at h2
  subst h2
  simp


lemma delete_absent (cr : CheckResult) (name : String)
    (hlk : alLookup (cr.PerformanceData.getD []) name = none) :
    DeletePerformanceData cr name = some cr := by
  simp [DeletePerformanceData, hlk]

lemma delete_noindex (cr : CheckResult) (name : String)
    (v : PerformanceMetric)
    (hlk : alLookup (cr.PerformanceData.getD []) name = some v)
    (hidx : alLookup (cr.perfIndexMap.getD []) name = none) :
    DeletePerformanceData cr name =
      some { cr with
              PerformanceData := some (alErase (cr.PerformanceData.getD []) name) } := by
  simp [DeletePerformanceData, hlk, hidx]

lemma delete_swap (cr : CheckResult) (name : String)
    (v : PerformanceMetric) (i : Nat)
    (hlk : alLookup (cr.PerformanceData.getD []) name = some v)
    (hidx : alLookup (cr.perfIndexMap.getD []) name = some i)
    (hi : i < cr.PerfOrder.length) :
    DeletePerformanceData cr name =
      some { cr with
              PerformanceData := some (alErase (cr.PerformanceData.getD []) name)
              perfIndexMap := some (alInsert (alErase (cr.perfIndexMap.getD []) name)
                (cr.PerfOrder.getD (cr.PerfOrder.length - 1) "") i)
              PerfOrder := (cr.PerfOrder.set i
                (cr.PerfOrder.getD (cr.PerfOrder.length - 1) "")).take
                  (cr.PerfOrder.length - 1) } := by
  have hne : cr.PerfOrder.length ≠ 0 := Nat.pos_iff_ne_zero.mp (Nat.lt_of_le_of_lt (Nat.zero_le _) hi)
  simp [DeletePerformanceData, hlk, hidx, hne, hi]


lemma alLookup_isSome_iff {α : Type} (l : List (String × α)) (k : String) :
    (alLookup l k).isSome = true ↔ k ∈ l.map Prod.fst := by
  induction l with
  | nil => simp [alLookup]
  | cons p rest ih =>
      obtain ⟨k', v'⟩ := p
      by_cases h : k = k' <;> simp [alLookup, h, ih]

lemma alLookup_alErase_self {α : Type} (l : List (String × α)) (k : String) :
    alLookup (alErase l k) k = none := by
  induction l with
  | nil => simp [alErase, alLookup]
  | cons p rest ih =>
      obtain ⟨k', v'⟩ := p
      by_cases h : k = k'
      · subst h
        simp [alErase, alLookup, ih]
      · simp [alErase, alLookup, h, Ne.symm h, ih]

lemma alLookup_alErase_ne {α : Type} (l : List (String × α)) (k k' : String)
    (h : k' ≠ k) : alLookup (alErase l k) k' = alLookup l k' := by
  induction l with
  | nil => simp [alErase, alLookup]
  | cons p rest ih =>
      obtain ⟨k'', v''⟩ := p
      by_cases h2 : k = k''
      · subst h2
        simp [alErase, alLookup, h, ih]
      · simp only [alErase, if_neg h2, alLookup]
        by_cases h3 : k' = k'' <;> simp [h3, ih]

lemma alInsert_keys_present {α : Type} (l : List (String × α)) (k : String) (v v' : α)
    (hlk : alLookup l k = some v) :
    (alInsert l k v').map Prod.fst = l.map Prod.fst := by
  induction l with
  | nil => simp [alLookup] at hlk
  | cons p rest ih =>
      obtain ⟨k'', v''⟩ := p
      by_cases h : k = k''
      · simp [alInsert, h]
      · simp only [alLookup, if_neg h] at hlk
        simp [alInsert, if_neg h, ih hlk]

lemma alInsert_keys_absent {α : Type} (l : List (String × α)) (k : String) (v : α)
    (hlk : alLookup l k = none) :
    (alInsert l k v).map Prod.fst = l.map Prod.fst ++ [k] := by
  induction l with
  | nil => simp [alInsert]
  | cons p rest ih =>
      obtain ⟨k'', v''⟩ := p
      by_cases h : k = k''
      · simp [alLookup, h] at hlk
      · simp only [alLookup, if_neg h] at hlk
        simp [alInsert, if_neg h, ih hlk]

lemma alErase_keys_sublist {α : Type} (l : List (String × α)) (k : String) :
    ((alErase l k).map Prod.fst).Sublist (l.map Prod.fst) := by
  induction l with
  | nil => simp [alErase]
  | cons p rest ih =>
      obtain ⟨k'', v''⟩ := p
      by_cases h : k = k''
      · simp only [alErase, if_pos h, List.map_cons]
        exact ih.trans (List.sublist_cons_self _ _)
      · simpa [alErase, if_neg h] using ih.cons₂ k''

lemma alInsert_keys_nodup {α : Type} (l : List (String × α)) (k : String) (v : α)
    (h : (l.map Prod.fst).Nodup) : ((alInsert l k v).map Prod.fst).Nodup := by
  cases hlk : alLookup l k with
  | none =>
      rw [alInsert_keys_absent l k v hlk]
      have : k ∉ l.map Prod.fst := by
        rw [← alLookup_isSome_iff, hlk]
        simp
      simp [List.nodup_append, h, this]
  | some v' => rwa [alInsert_keys_present l k v' v hlk]

lemma alErase_keys_nodup {α : Type} (l : List (String × α)) (k : String)
    (h : (l.map Prod.fst).Nodup) : ((alErase l k).map Prod.fst).Nodup :=
  (alErase_keys_sublist l k).nodup h


lemma Inv.toInSync (cr : CheckResult) (h : Inv cr) : inSync cr := by
  obtain ⟨-, -, -, -, hnd, hiff, -⟩ := h
  refine ⟨hnd, fun name hm => (hiff name).mp hm, fun p hp => ?_⟩
  rw [hiff]
  rw [alLookup_isSome_iff]
  exact List.mem_map_of_mem Prod.fst hp

lemma inv_new : Inv NewCheckResult := by
  refine ⟨rfl, rfl, by simp [NewCheckResult], by simp [NewCheckResult], by simp [NewCheckResult],
    ?_, ?_⟩
  · intro name
    simp [NewCheckResult, alLookup]
  · intro i h
    simp [NewCheckResult] at h

lemma inv_set (cr : CheckResult) (ec : ExitCode) (msg : String) (h : Inv cr) :
    Inv (SetResult cr ec msg) := h

lemma inv_update (cr cr' : CheckResult) (name : String) (m : PerformanceMetric)
    (hinv : Inv cr)
    (hmem : (alLookup (cr.PerformanceData.getD []) name).isSome = true)
    (h : UpdatePerformanceData cr name m = some cr') : Inv cr' := by
  obtain ⟨hpds, hpims, hpdnd, hpimnd, hond, hiff, hidx⟩ := hinv
  obtain ⟨pd, hpd⟩ := Option.isSome_iff_exists.mp hpds
  rw [UpdatePerformanceData, hpd] at h
  rw [Option.some.injEq] at h
  subst h
  obtain ⟨v, hv⟩ := Option.isSome_iff_exists.mp (by rw [hpd] at hmem; simpa using hmem)
  refine ⟨rfl, hpims, ?_, hpimnd, hond, ?_, hidx⟩
  · simp only [Option.getD_some]
    rw [alInsert_keys_present pd name v m hv]
    rw [hpd] at hpdnd
    simpa using hpdnd
  · intro x
    rw [hpd] at hiff
    simp only [Option.getD_some] at hiff ⊢
    by_cases hx : x = name
    · subst hx
      simp only [alLookup_alInsert_self, Option.isSome_some, iff_true]
      rw [hiff]
      simp [hv]
    · rw [alLookup_alInsert_ne pd name x m hx]
      exact hiff x


lemma inv_add (cr cr' : CheckResult) (name : String) (m : PerformanceMetric)
    (hinv : Inv cr) (h : AddPerformanceData cr name m = some cr') : Inv cr' := by
  obtain ⟨hpds, hpims, hpdnd, hpimnd, hond, hiff, hidx⟩ := hinv
  obtain ⟨pd, hpd⟩ := Option.isSome_iff_exists.mp hpds
  obtain ⟨pim, hpim⟩ := Option.isSome_iff_exists.mp hpims
  rw [hpd] at hpdnd hiff
  rw [hpim] at hpimnd hidx
  simp only [Option.getD_some] at hpdnd hpimnd hiff hidx
  cases hlk : alLookup pd name with
  | some v =>
      rw [add_existing cr name m pd v hpd hlk, Option.some.injEq] at h
      subst h
      refine ⟨rfl, by rw [hpim]; rfl, ?_, by rw [hpim]; simpa using hpimnd, hond, ?_, ?_⟩
      · simp only [Option.getD_some]
        rw [alInsert_keys_present pd name v m hlk]
        exact hpdnd
      · intro x
        simp only [Option.getD_some]
        by_cases hx : x = name
        · subst hx
          simp only [alLookup_alInsert_self, Option.isSome_some, iff_true]
          rw [hiff]
          simp [hlk]
        · rw [alLookup_alInsert_ne pd name x m hx]
          exact hiff x
      · intro i hi
        rw [hpim]
        exact hidx i hi
  | none =>
      rw [add_fresh cr name m pd pim hpd hpim hlk, Option.some.injEq] at h
      subst h
      have hname : name ∉ cr.PerfOrder := by
        rw [hiff, hlk]
        simp
      refine ⟨rfl, rfl, ?_, ?_, ?_, ?_, ?_⟩
      · simp only [Option.getD_some]
        rw [alInsert_keys_absent pd name m hlk]
        have : name ∉ pd.map Prod.fst := by
          rw [← alLookup_isSome_iff, hlk]
          simp
        simp [List.nodup_append, hpdnd, this]
      · simp only [Option.getD_some]
        exact alInsert_keys_nodup pim name cr.PerfOrder.length hpimnd
      · simp [List.nodup_append, hond, hname]
      · intro x
        simp only [Option.getD_some, List.mem_append, List.mem_singleton]
        by_cases hx : x = name
        · subst hx
          simp
        · rw [alLookup_alInsert_ne pd name x m hx]
          simp only [hx, or_false]
          exact hiff x
      · intro i hi
        simp only [List.length_append, List.length_singleton] at hi
        simp only [Option.getD_some]
        by_cases hi' : i < cr.PerfOrder.length
        · have hget : (cr.PerfOrder ++ [name]).get ⟨i, by simpa using hi⟩ =
              cr.PerfOrder.get ⟨i, hi'⟩ := by
            simp only [List.get_eq_getElem]
            exact List.getElem_append_left hi'
          rw [hget]
          have hne : cr.PerfOrder.get ⟨i, hi'⟩ ≠ name := by
            intro hcontra
            exact hname (hcontra ▸ List.get_mem _ _ _)
          rw [alLookup_alInsert_ne pim name _ cr.PerfOrder.length hne]
          exact hidx i hi'
        · have hieq : i = cr.PerfOrder.length := by omega
          subst hieq
          have hget : (cr.PerfOrder ++ [name]).get ⟨cr.PerfOrder.length, by simp⟩ = name := by
            simp
          rw [hget, alLookup_alInsert_self]


lemma getD_last (L : List String) (h : 0 < L.length) :
    L.getD (L.length - 1) "" = L.get ⟨L.length - 1, by omega⟩ := by
  simp [List.getD_eq_getElem?_getD, List.getElem?_eq_getElem (by omega : L.length - 1 < L.length)]

lemma swapRemove_get (L : List String) (j : ℕ) (hj : j < L.length)
    (i : ℕ) (hi : i < L.length - 1) :
    ((L.set j (L.getD (L.length - 1) "")).take (L.length - 1)).get
        ⟨i, by simp [List.length_take, List.length_set]; omega⟩ =
      if j = i then L.getD (L.length - 1) "" else L.get ⟨i, by omega⟩ := by
  simp only [List.get_eq_getElem, List.getElem_take, List.getElem_set]


lemma inv_delete (cr cr' : CheckResult) (name : String)
    (hinv : Inv cr) (h : DeletePerformanceData cr name = some cr') : Inv cr' := by
  obtain ⟨hpds, hpims, hpdnd, hpimnd, hond, hiff, hidx⟩ := hinv
  obtain ⟨pd, hpd⟩ := Option.isSome_iff_exists.mp hpds
  obtain ⟨pim, hpim⟩ := Option.isSome_iff_exists.mp hpims
  rw [hpd] at hpdnd hiff
  rw [hpim] at hpimnd hidx
  simp only [Option.getD_some] at hpdnd hpimnd hiff hidx
  cases hlk : alLookup pd name with
  | none =>
      rw [delete_absent cr name (by rw [hpd]; simpa using hlk), Option.some.injEq] at h
      subst h
      exact ⟨hpds, hpims, by rw [hpd]; simpa using hpdnd, by rw [hpim]; simpa using hpimnd,
        hond, by rw [hpd]; simpa using hiff, by rw [hpim]; simpa using hidx⟩
  | some v =>
      -- the deleted name sits at index j of PerfOrder
      have hmem : name ∈ cr.PerfOrder := by
        rw [hiff, hlk]
        rfl
      obtain ⟨⟨j, hj⟩, hgetj⟩ := List.mem_iff_get.mp hmem
      have hidxname : alLookup pim name = some j := by
        rw [← hgetj]
        exact hidx j hj
      have hswap := delete_swap cr name v j
        (by rw [hpd]; simpa using hlk) (by rw [hpim]; simpa using hidxname) hj
      rw [hswap, Option.some.injEq] at h
      subst h
      set n := cr.PerfOrder.length with hn
      have hpos : 0 < n := by omega
      set last := cr.PerfOrder.getD (n - 1) "" with hlast
      have hlastget : last = cr.PerfOrder.get ⟨n - 1, by omega⟩ := getD_last _ hpos
      set L' := (cr.PerfOrder.set j last).take (n - 1) with hL'
      have hlen' : L'.length = n - 1 := by
        simp [hL', List.length_take, List.length_set]
      have hget' : ∀ i (hi : i < n - 1),
          L'.get ⟨i, by omega⟩ =
            if j = i then last else cr.PerfOrder.get ⟨i, by omega⟩ := by
        intro i hi
        exact swapRemove_get cr.PerfOrder j hj i hi
      have hinj := List.nodup_iff_injective_get.mp hond
      have hget_ne_name : ∀ (i : ℕ) (hi : i < n) (hne : i ≠ j),
          cr.PerfOrder.get ⟨i, hi⟩ ≠ name := by
        intro i hi hne hcontra
        rw [← hgetj] at hcontra
        exact hne (congrArg Fin.val (hinj hcontra))
      -- membership in the new order list
      have hmem' : ∀ x, x ∈ L' ↔ (x ≠ name ∧ x ∈ cr.PerfOrder) := by
        intro x
        constructor
        · intro hx
          obtain ⟨⟨i, hilen⟩, hgeti⟩ := List.mem_iff_get.mp hx
          have hi : i < n - 1 := by omega
          have hgeti' : (if j = i then last else cr.PerfOrder.get ⟨i, by omega⟩) = x := by
            rw [← hget' i hi]
            exact hgeti
          by_cases hij : j = i
          · rw [if_pos hij] at hgeti'
            subst hgeti'
            refine ⟨?_, hlastget ▸ List.get_mem _ _ _⟩
            intro hcontra
            exact hget_ne_name (n - 1) (by omega) (by omega) (hlastget ▸ hcontra)
          · rw [if_neg hij] at hgeti'
            subst hgeti'
            exact ⟨hget_ne_name i (by omega) (fun hc => hij hc.symm),
              List.get_mem _ _ _⟩
        · rintro ⟨hne, hx⟩
          obtain ⟨⟨i, hilen⟩, hgeti⟩ := List.mem_iff_get.mp hx
          have hij : i ≠ j := by
            intro hcontra
            subst hcontra
            rw [hgetj] at hgeti
            exact hne hgeti.symm
          by_cases hi : i < n - 1
          · rw [List.mem_iff_get]
            refine ⟨⟨i, by omega⟩, ?_⟩
            rw [hget' i hi, if_neg (fun hc => hij hc.symm)]
            exact hgeti
          · -- i = n - 1, so x = last, and j < n - 1 since j ≠ i
            have hjlt : j < n - 1 := by omega
            rw [List.mem_iff_get]
            refine ⟨⟨j, by omega⟩, ?_⟩
            rw [hget' j hjlt, if_pos rfl, hlastget, ← hgeti]
            congr 1
            exact Fin.ext (show n - 1 = i by omega)
      simp only [Inv, hpd, hpim, Option.getD_some]
      refine ⟨rfl, rfl, alErase_keys_nodup pd name hpdnd,
        alInsert_keys_nodup (alErase pim name) last j
          (alErase_keys_nodup pim name hpimnd),
        ?_, ?_, ?_⟩
      · -- Nodup of the new order list
        rw [List.nodup_iff_injective_get]
        rintro ⟨i₁, h₁⟩ ⟨i₂, h₂⟩ heq
        rw [hlen'] at h₁ h₂
        have e₁ := hget' i₁ h₁
        have e₂ := hget' i₂ h₂
        rw [e₁, e₂] at heq
        by_cases hj₁ : j = i₁ <;> by_cases hj₂ : j = i₂
        · exact Fin.ext (show i₁ = i₂ by omega)
        · rw [if_pos hj₁, if_neg hj₂, hlastget] at heq
          have hv : n - 1 = i₂ := congrArg Fin.val (hinj heq)
          omega
        · rw [if_neg hj₁, if_pos hj₂, hlastget] at heq
          have hv : n - 1 = i₁ := congrArg Fin.val (hinj heq.symm)
          omega
        · rw [if_neg hj₁, if_neg hj₂] at heq
          exact Fin.ext (show i₁ = i₂ from congrArg Fin.val (hinj heq))
      · -- order list matches the keys of the shrunken map
        intro x
        rw [hmem' x]
        by_cases hx : x = name
        · subst hx
          simp [alLookup_alErase_self]
        · rw [alLookup_alErase_ne pd name x hx, ← hiff]
          simp [hx]
      · -- the index map still gives every surviving name its index
        intro i hi
        have hi' : i < n - 1 := hlen' ▸ hi
        have hgi : L'.get ⟨i, hi⟩ =
            if j = i then last else cr.PerfOrder.get ⟨i, by omega⟩ := hget' i hi'
        rw [hgi]
        by_cases hij : j = i
        · rw [if_pos hij, alLookup_alInsert_self, hij]
        · rw [if_neg hij]
          have hne_last : cr.PerfOrder.get ⟨i, by omega⟩ ≠ last := by
            rw [hlastget]
            intro hcontra
            have hv : i = n - 1 := congrArg Fin.val (hinj hcontra)
            omega
          rw [alLookup_alInsert_ne _ last _ j hne_last]
          have hne_name : cr.PerfOrder.get ⟨i, by omega⟩ ≠ name :=
            hget_ne_name i (by omega) (fun hc => hij hc.symm)
          rw [alLookup_alErase_ne pim name _ hne_name]
          exact hidx i (by omega : i < cr.PerfOrder.length)




lemma inv_step (cr cr' : CheckResult) (op : Op) (hinv : Inv cr)
    (hok : okOp cr op) (h : applyOp cr op = some cr') : Inv cr' := by
  cases op with
  | setResult ec msg =>
      simp only [applyOp, Option.some.injEq] at h
      subst h
      exact inv_set cr ec msg hinv
  | add name m => exact inv_add cr cr' name m hinv h
  | update name m => exact inv_update cr cr' name m hinv hok h
  | delete name => exact inv_delete cr cr' name hinv h

lemma legalRun_inv {cr cr'' : CheckResult} {ops : List Op}
    (h : LegalRun cr ops cr'') : Inv cr → Inv cr'' := by
  induction h with
  | nil _ => exact id
  | cons hok happ _ ih => exact fun hinv => ih (inv_step _ _ _ hinv hok happ)

lemma roundHalfEven_natCast (m : ℕ) : roundHalfEven (m : ℚ) = m := by
  unfold roundHalfEven
  norm_num

lemma fmtF2_nonneg_cents (q : ℚ) (m : ℕ) (hq : 0 ≤ q) (h : q * 100 = (m : ℚ)) :
    fmtF2 q = toString (m / 100) ++ "." ++
      (if m % 100 < 10 then "0" ++ toString (m % 100) else toString (m % 100)) := by
  unfold fmtF2
  rw [abs_of_nonneg hq, h, roundHalfEven_natCast, if_neg (not_lt.mpr hq)]
  simp

lemma fmtF2_val123 : fmtF2 (1.23 : ℚ) = "1.23" := by
  rw [fmtF2_nonneg_cents (1.23 : ℚ) 123 (by norm_num) (by norm_num)]
  decide

lemma fmtF2_val100 : fmtF2 (1.00 : ℚ) = "1.00" := by
  rw [fmtF2_nonneg_cents (1.00 : ℚ) 100 (by norm_num) (by norm_num)]
  decide

lemma fmtF2_val200 : fmtF2 (2.00 : ℚ) = "2.00" := by
  rw [fmtF2_nonneg_cents (2.00 : ℚ) 200 (by norm_num) (by norm_num)]
  decide

lemma fmtF2_val000 : fmtF2 (0.00 : ℚ) = "0.00" := by
  rw [fmtF2_nonneg_cents (0.00 : ℚ) 0 (by norm_num) (by norm_num)]
  decide

lemma fmtF2_val1000 : fmtF2 (10.00 : ℚ) = "10.00" := by
  rw [fmtF2_nonneg_cents (10.00 : ℚ) 1000 (by norm_num) (by norm_num)]
  decide

lemma sprintf2_default (a b : String) : sprintf2 "%s - %s" a b = a ++ " - " ++ b := by
  show String.mk (a.data ++ (' ' :: '-' :: ' ' :: (b.data ++ []))) = a ++ " - " ++ b
  show String.mk (a.data ++ (' ' :: '-' :: ' ' :: (b.data ++ []))) =
    String.mk ((a.data ++ [' ', '-', ' ']) ++ b.data)
  apply congrArg String.mk
  simp

/-- C1: evaluating `DeletePerformanceData` at the failing input.  Building the
order [a, b, c, d] and deleting the non-terminal name "b" yields the order
[a, d, c] — the last entry "d" is swapped into the vacated slot — and not the
stable removal [a, c, d] that the specification mandates. -/
theorem delete_is_swap_with_last :
    (runOps NewCheckResult [Op.add "a" zeroMetric, Op.add "b" zeroMetric,
        Op.add "c" zeroMetric, Op.add "d" zeroMetric, Op.delete "b"]).map
      (fun cr => cr.PerfOrder) = some ["a", "d", "c"] ∧
    (runOps NewCheckResult [Op.add "a" zeroMetric, Op.add "b" zeroMetric,
        Op.add "c" zeroMetric, Op.add "d" zeroMetric, Op.delete "b"]).map
      (fun cr => cr.PerfOrder) ≠ some ["a", "c", "d"] :=
  ⟨rfl, by decide⟩

/-- C2 (counterexample): as stated — over arbitrary sequences of the four
public operations from `NewCheckResult` — the sync claim is false:
`UpdatePerformanceData` with a fresh name inserts the name into the metric
map without extending `PerfOrder`. -/
theorem update_breaks_sync :
    ¬ (∀ (ops : List Op) (cr' : CheckResult),
        runOps NewCheckResult ops = some cr' → inSync cr') := by
  intro hall
  have h := hall [Op.update "x" zeroMetric]
    { ExitCode := OK, Message := "", PerfOrder := [],
      PerformanceData := some [("x", zeroMetric)], Format := "%s - %s",
      perfIndexMap := some [] } rfl
  obtain ⟨-, -, h3⟩ := h
  have := h3 ("x", zeroMetric) (by simp)
  simp at this

/-- C2 (amended): for every sequence of public operations applied to a report
built by `NewCheckResult` in which each `UpdatePerformanceData` call uses a
name already present in the metric map, after each operation `PerfOrder`
contains each key of the metric map exactly once and every name in
`PerfOrder` is a key of the map. -/
theorem ops_preserve_sync (ops : List Op) (cr' : CheckResult)
    (h : LegalRun NewCheckResult ops cr') : inSync cr' :=
  Inv.toInSync cr' (legalRun_inv h inv_new)

/-- Witness for C2: an add/update/delete round trip on one name is a legal
run, and the resulting state is in sync. -/
theorem ops_preserve_sync_witness : inSync syncOpsResult :=
  ops_preserve_sync syncOps syncOpsResult
    (LegalRun.cons trivial rfl
      (LegalRun.cons rfl rfl
        (LegalRun.cons trivial rfl (LegalRun.nil syncOpsResult))))

/-- C3: the four known status codes map to the fixed name/number pairs, and
every other integer value keeps its raw number and is named with the
`ExitCode(<n>)` fallback; both functions are total. -/
theorem exitCode_name_int_table :
    (ExitCodeString OK = "OK" ∧ ExitCodeString Warning = "Warning" ∧
     ExitCodeString Critical = "Critical" ∧ ExitCodeString Unknown = "Unknown" ∧
     ExitCodeInt OK = 0 ∧ ExitCodeInt Warning = 1 ∧ ExitCodeInt Critical = 2 ∧
     ExitCodeInt Unknown = 3) ∧
    ∀ n : ExitCode, n ≠ OK → n ≠ Warning → n ≠ Critical → n ≠ Unknown →
      ExitCodeString n = "ExitCode(" ++ toString n ++ ")" ∧ ExitCodeInt n = n := by
  refine ⟨⟨rfl, rfl, rfl, rfl, rfl, rfl, rfl, rfl⟩, ?_⟩
  intro n h0 h1 h2 h3
  unfold ExitCodeString ExitCodeInt
  rw [if_neg h0, if_neg h1, if_neg h2, if_neg h3,
    if_neg h0, if_neg h1, if_neg h2, if_neg h3]
  exact ⟨rfl, rfl⟩

/-- Witness for C3 at the out-of-range code 100 (the value the repository's
own tests use). -/
theorem exitCode_name_int_table_witness :
    ExitCodeString 100 = "ExitCode(100)" ∧ ExitCodeInt 100 = 100 := by
  have h := exitCode_name_int_table.2 100 (by decide) (by decide) (by decide) (by decide)
  rwa [show ("ExitCode(" ++ toString (100 : ExitCode) ++ ")") = "ExitCode(100)" from rfl] at h

/-- C4: a report with the default template, status OK, message "Everything is
fine" and exactly the one metric response_time = 1.23 ms (warn 1.00, crit
2.00, min 0.00, max 10.00) renders to the exact documented line, with every
numeric field printed with two decimals and the metric token followed by one
trailing space. -/
theorem formatResult_single_metric (cr : CheckResult)
    (hf : cr.Format = "%s - %s") (he : cr.ExitCode = OK)
    (hm : cr.Message = "Everything is fine")
    (ho : cr.PerfOrder = ["response_time"])
    (hp : cr.PerformanceData = some [("response_time", responseMetric)]) :
    FormatResult cr =
      "OK - Everything is fine | 'response_time'=1.23ms;1.00;2.00;0.00;10.00 " := by
  unfold FormatResult
  rw [hf, he, hm, ho, hp]
  simp only [goMapLen, Option.getD, List.foldl, alLookup, metricStr, responseMetric,
    if_pos rfl, if_true]
  rw [fmtF2_val123, fmtF2_val100, fmtF2_val200, fmtF2_val000, fmtF2_val1000]
  decide

/-- Witness for C4: the spec's worked example evaluates to the documented
string. -/
theorem formatResult_single_metric_witness :
    FormatResult responseReport =
      "OK - Everything is fine | 'response_time'=1.23ms;1.00;2.00;0.00;10.00 " :=
  formatResult_single_metric responseReport rfl rfl rfl rfl rfl

/-- C5: with an empty metric map (nil or allocated-empty) and the default
template, rendering returns exactly the status name, the " - " separator and
the message — no pipe, no metric tokens, no trailing space. -/
theorem formatResult_no_metrics (cr : CheckResult)
    (h : goMapLen cr.PerformanceData = 0) (hf : cr.Format = "%s - %s") :
    FormatResult cr = ExitCodeString cr.ExitCode ++ " - " ++ cr.Message := by
  unfold FormatResult
  rw [h, hf, sprintf2_default]
  simp

/-- Witness for C5 on a fresh report with status and message set. -/
theorem formatResult_no_metrics_witness :
    FormatResult (SetResult NewCheckResult Warning "all idle") =
      ExitCodeString (SetResult NewCheckResult Warning "all idle").ExitCode ++
        " - " ++ (SetResult NewCheckResult Warning "all idle").Message :=
  formatResult_no_metrics (SetResult NewCheckResult Warning "all idle") rfl rfl

/-- C6: adding the same name twice leaves `PerfOrder` exactly as the first
call left it (the name keeps its position) and stores the second call's
metric under the name. -/
theorem add_twice_keeps_position (cr : CheckResult) (name : String)
    (m1 m2 : PerformanceMetric) (cr1 cr2 : CheckResult)
    (h1 : AddPerformanceData cr name m1 = some cr1)
    (h2 : AddPerformanceData cr1 name m2 = some cr2) :
    cr2.PerfOrder = cr1.PerfOrder ∧
      alLookup (cr2.PerformanceData.getD []) name = some m2 := by
  obtain ⟨pd1, hpd1, hlk1⟩ := add_pd_some cr cr1 name m1 h1
  rw [add_existing cr1 name m2 pd1 m1 hpd1 hlk1, Option.some.injEq] at h2
  subst h2
  simp

/-- Witness for C6: adding "t" twice to a fresh report. -/
theorem add_twice_keeps_position_witness :
    addTwiceSecond.PerfOrder = addTwiceFirst.PerfOrder ∧
      alLookup (addTwiceSecond.PerformanceData.getD []) "t" = some mOne :=
  add_twice_keeps_position NewCheckResult "t" zeroMetric mOne
    addTwiceFirst addTwiceSecond rfl rfl

/-- C7: on any report whose metric map is allocated, `UpdatePerformanceData`
always succeeds — it overwrites the entry when the name exists and inserts
the pair when it does not (mapping-style upsert), and afterwards the name
maps to the given metric. -/
theorem update_is_upsert (cr : CheckResult) (name : String)
    (m : PerformanceMetric) (pd : List (String × PerformanceMetric))
    (h : cr.PerformanceData = some pd) :
    UpdatePerformanceData cr name m =
      some { cr with PerformanceData := some (alInsert pd name m) } ∧
    alLookup (alInsert pd name m) name = some m := by
  unfold UpdatePerformanceData
  rw [h]
  exact ⟨rfl, by simp⟩

/-- Witness for C7 on a fresh report and a name that is not present. -/
theorem update_is_upsert_witness :
    UpdatePerformanceData NewCheckResult "q" zeroMetric =
      some { NewCheckResult with
              PerformanceData := some (alInsert [] "q" zeroMetric) } ∧
    alLookup (alInsert [] "q" zeroMetric) "q" = some zeroMetric :=
  update_is_upsert NewCheckResult "q" zeroMetric [] rfl

/-- C8: rendering is pure — the state-threaded form of `FormatResult` returns
the receiver unchanged, and a second render of that returned state produces
the same string as the first. -/
theorem formatResult_pure : ∀ cr : CheckResult,
    (FormatResultM cr).2 = cr ∧
    (FormatResultM (FormatResultM cr).2).1 = (FormatResultM cr).1 :=
  fun _ => ⟨rfl, rfl⟩

/-- C9: `SendResult` writes exactly the `FormatResult` string followed by a
newline to standard output and terminates with exit status
`ExitCodeInt cr.ExitCode`. -/
theorem sendResult_renders_and_exits : ∀ cr : CheckResult,
    (SendResult cr).stdout = FormatResult cr ++ "\n" ∧
    (SendResult cr).exitStatus = ExitCodeInt cr.ExitCode :=
  fun _ => ⟨rfl, rfl⟩

/-- C10: `SetResult` assigns exactly the status and message fields and leaves
the metric map, the order sequence, the index map and the format template
untouched. -/
theorem setResult_frame : ∀ (cr : CheckResult) (ec : ExitCode) (msg : String),
    (SetResult cr ec msg).ExitCode = ec ∧
    (SetResult cr ec msg).Message = msg ∧
    (SetResult cr ec msg).PerformanceData = cr.PerformanceData ∧
    (SetResult cr ec msg).PerfOrder = cr.PerfOrder ∧
    (SetResult cr ec msg).perfIndexMap = cr.perfIndexMap ∧
    (SetResult cr ec msg).Format = cr.Format :=
  fun _ _ _ => ⟨rfl, rfl, rfl, rfl, rfl, rfl⟩

end GoMonitor
